import Mathlib

/-!
Shallow embedding of `my_model_selectors.py`: the four per-word HMM
model-selection strategies (Constant, BIC, DIC, CV) and their shared
training entry point.  The external collaborators — the hmmlearn trainer
(`GaussianHMM(...).fit`), model scoring (`model.score`) and numpy's `log` —
are abstracted into an environment `Env`; the sklearn two-fold splitter and
the sequence combiner of `asl_utils` (not under `src/`) are modelled
concretely below.  Scores are exact rationals: floating point rounding and
NaN are not modelled, and the claims that would touch the NaN corner
(`np.mean` of an empty list) carry non-emptiness hypotheses instead.
A raised-and-caught Python exception is an `Except.error`; a `select`
method's result is an `Option` model (`none` is Python's `None`).
-/

/-- Observation data for one word: the flattened observation matrix
(a list of feature vectors) paired with the per-sequence length markers. -/
abbrev ObsData (α : Type) := List α × List Nat

/-- The external capabilities every selector calls through: the HMM trainer
(fixed hyperparameters: diagonal covariance, 1000 iterations, the seed;
`none` on any training failure), model scoring (`none` when `model.score`
raises) and numpy's logarithm applied to the data-point count. -/
structure Env (α M : Type) where
  train : ObsData α → Nat → Option M
  score : M → ObsData α → Option ℚ
  npLog : Nat → ℚ

/-- The per-word instance state set up by `ModelSelector.__init__`: the
word's raw sequences, the flattened observations `X` with `lengths`, the
cross-word index `hwords`, the word itself and the search configuration.
(`words`, `random_state` and `verbose` are omitted: `words` is never read
by any selector, `random_state` is a fixed trainer hyperparameter folded
into `Env.train`, and `verbose` only gates printing.) -/
structure SState (α : Type) where
  sequences : List (List α)
  X : List α
  lengths : List Nat
  hwords : List (String × ObsData α)
  this_word : String
  n_constant : Nat
  min_n_components : Nat
  max_n_components : Nat

variable {α M : Type}

/-- `ModelSelector.base_model`: train at `num_states` on the CURRENT
`self.X`, `self.lengths`; every exception is caught and `None` returned,
which the already-`Option`-valued `Env.train` models directly. -/
def base_model (env : Env α M) (s : SState α) (n : Nat) : Option M :=
  env.train (s.X, s.lengths) n

/-- `range(min_n_components, max_n_components + 1)`, the candidate
state-count range shared by the three searching strategies. -/
def searchRange (a b : Nat) : List Nat :=
  List.range' a (b + 1 - a)

/-- `SelectorConstant.select`: one training call at `n_constant` states. -/
def const_select (env : Env α M) (s : SState α) : Option M :=
  base_model env s s.n_constant

/-- `np.mean` on a list of scores (arithmetic mean).  `np.mean([])` is NaN
in numpy; NaN is unmodelled here, the division by zero yields `0`, and the
claims about mean scores assume the list is non-empty. -/
def npMean (l : List ℚ) : ℚ :=
  l.sum / l.length

/-- `SelectorBIC.calc_deg_lib`. -/
def calc_deg_lib (num_states num_data_points : Int) : Int :=
  num_states ^ 2 + 2 * num_states * num_data_points - 1

/-- `SelectorBIC.calc_score`, parametric in numpy's `log`. -/
def calc_score (log : Nat → ℚ) (log_likelihood : ℚ) (num_free_params : Int)
    (num_data_points : Nat) : ℚ :=
  -2 * log_likelihood + num_free_params * log num_data_points

/-- The body of BIC's per-candidate `try`: train, score on the word's own
data, build the `(BIC score, model)` entry; `.error` is the raised
exception (scoring a `None` model, or a failing scoring call). -/
def bicBody (env : Env α M) (s : SState α) (n : Nat) : Except Unit (ℚ × M) :=
  match base_model env s n with
  | none => .error ()
  | some m =>
    match env.score m (s.X, s.lengths) with
    | none => .error ()
    | some L =>
      .ok (calc_score env.npLog L (calc_deg_lib n s.lengths.sum) s.lengths.sum, m)

/-- BIC's `score_bics` accumulator: each candidate either appends its entry
or is skipped by the per-candidate `except: pass`. -/
def bic_entries (env : Env α M) (s : SState α) : List (ℚ × M) :=
  (searchRange s.min_n_components s.max_n_components).foldl
    (fun acc n =>
      match bicBody env s n with
      | .ok e => acc ++ [e]
      | .error _ => acc) []

/-- The running comparison of Python's `min(xs, key=fst)`: replace the
incumbent only when the key is strictly smaller. -/
def minUpd (b y : ℚ × M) : ℚ × M :=
  if y.1 < b.1 then y else b

/-- `SelectorBIC.calc_best_score_bic`: Python's `min(score_bics, key=fst)`,
keeping the first entry attaining the minimal score; `none` on the empty
list (where Python would raise, a case guarded in `select`). -/
def calc_best_score_bic : List (ℚ × M) → Option (ℚ × M)
  | [] => none
  | x :: xs => some (xs.foldl minUpd x)

/-- `SelectorBIC.select`: collect entries over the range, return the
minimum-score model, `None` when no candidate produced an entry. -/
def bic_select (env : Env α M) (s : SState α) : Option M :=
  match calc_best_score_bic (bic_entries env s) with
  | some p => some p.2
  | none => none

/-- DIC's inner `for word, (X, lengths) in self.hwords.items()` loop over
the entries kept by `word != self.this_word`: collect `model.score` of each
entry in order, `none` as soon as one scoring call raises. -/
def scoreAll (env : Env α M) (m : M) : List (String × ObsData α) → Option (List ℚ)
  | [] => some []
  | p :: rest =>
    match env.score m p.2 with
    | none => none
    | some sc =>
      match scoreAll env m rest with
      | none => none
      | some l => some (sc :: l)

/-- `SelectorDIC.dic_score`: train at `n`, score every other word of
`hwords`, subtract the mean from the word's own score; `.error` is any
exception inside (scoring with a `None` model, or a failing scoring
call). -/
def dic_score (env : Env α M) (s : SState α) (n : Nat) : Except Unit (ℚ × M) :=
  match base_model env s n with
  | none => .error ()
  | some m =>
    match scoreAll env m (s.hwords.filter fun p => p.1 != s.this_word) with
    | none => .error ()
    | some scores =>
      match env.score m (s.X, s.lengths) with
      | none => .error ()
      | some own => .ok (own - npMean scores, m)

/-- The replacement when the new score is strictly greater: the running
maximum of `maxUpd`. -/
def maxUpd (b y : ℚ × M) : ℚ × M :=
  if b.1 < y.1 then y else b

/-- DIC's best-tracking update: `if score > best_score` (strict), starting
from `best_score = -Inf, best_model = None`, which the `none` incumbent
models (any score beats `-Inf`). -/
def dicStep (best : Option (ℚ × M)) (sc : ℚ) (m : M) : Option (ℚ × M) :=
  match best with
  | none => some (sc, m)
  | some b => if b.1 < sc then some (sc, m) else best

/-- DIC's search loop over the candidate range (the body of the `try`). -/
def dicLoop (env : Env α M) (s : SState α) :
    List Nat → Option (ℚ × M) → Except Unit (Option M)
  | [], best => .ok (best.map (·.2))
  | n :: rest, best =>
    match dic_score env s n with
    | .error _ => .error ()
    | .ok (sc, m) => dicLoop env s rest (dicStep best sc m)

/-- `SelectorDIC.select`: run the search; any exception anywhere in the
loop falls back to `base_model(n_constant)`. -/
def dic_select (env : Env α M) (s : SState α) : Option M :=
  match dicLoop env s (searchRange s.min_n_components s.max_n_components) none with
  | .ok r => r
  | .error _ => base_model env s s.n_constant

/-- Modelled from the spec: the fold-splitter capability (`KFold` of
sklearn with `n_splits=2`, deterministic partitioning; `asl_utils` and the
splitter are not under `src/`).  On `n` sequence indices: two consecutive
test blocks, the first of size `⌈n/2⌉`, each paired with the complementary
sorted train indices. -/
def kfold2 (n : Nat) : List (List Nat × List Nat) :=
  [(List.range' ((n + 1) / 2) (n - (n + 1) / 2), List.range' 0 ((n + 1) / 2)),
   (List.range' 0 ((n + 1) / 2), List.range' ((n + 1) / 2) (n - (n + 1) / 2))]

/-- Modelled from the spec: the sequence-combiner capability
(`combine_sequences` of `asl_utils`, not under `src/`): concatenate the
indexed sequences into one observation matrix and record their lengths. -/
def combine (idxs : List Nat) (seqs : List (List α)) : ObsData α :=
  ((idxs.map fun i => seqs.getD i []).flatten,
   idxs.map fun i => (seqs.getD i []).length)

/-- CV's fold loop (`for train_idx, test_idx in split_method.split(...)`):
each fold reassigns `self.X, self.lengths` to the combined training split,
retrains on it, scores the combined held-out split; returns the final
selector state together with either the fold scores and the last fold's
model, or the raised exception (also raised when the loop bound no model,
Python's unbound `model` name). -/
def cvFolds (env : Env α M) (n : Nat) (seqs : List (List α)) :
    List (List Nat × List Nat) → SState α → List ℚ → Option M →
    SState α × Except Unit (List ℚ × M)
  | [], s, scores, last =>
    (s, match last with
        | some m => .ok (scores, m)
        | none => .error ())
  | (tr, te) :: rest, s, scores, _ =>
    let c := combine tr seqs
    let s' : SState α := { s with X := c.1, lengths := c.2 }
    match base_model env s' n with
    | none => (s', .error ())
    | some m =>
      match env.score m (combine te seqs) with
      | none => (s', .error ())
      | some sc => cvFolds env n seqs rest s' (scores ++ [sc]) (some m)

/-- `SelectorCV.cv_score`: two-fold split (raising before any mutation when
there are fewer than 2 sequences, sklearn's `n_splits > n_samples` error),
the fold loop, then `(np.mean(scores), model)` with `model` the last
fold's model. -/
def cv_score (env : Env α M) (s : SState α) (n : Nat) :
    SState α × Except Unit (ℚ × M) :=
  if s.sequences.length < 2 then (s, .error ())
  else
    match cvFolds env n s.sequences (kfold2 s.sequences.length) s [] none with
    | (s', .error e) => (s', .error e)
    | (s', .ok (scores, m)) => (s', .ok (npMean scores, m))

/-- CV's best-tracking update: `if score < best_score` (strict), starting
from `best_score = +Inf, best_model = None`, which the `none` incumbent
models (any score beats `+Inf`). -/
def cvStep (best : Option (ℚ × M)) (sc : ℚ) (m : M) : Option (ℚ × M) :=
  match best with
  | none => some (sc, m)
  | some b => if sc < b.1 then some (sc, m) else best

/-- CV's search loop over the candidate range (the body of the `try`),
threading the fold-mutated selector state. -/
def cvLoop (env : Env α M) :
    List Nat → SState α → Option (ℚ × M) → SState α × Except Unit (Option M)
  | [], s, best => (s, .ok (best.map (·.2)))
  | n :: rest, s, best =>
    match cv_score env s n with
    | (s', .error _) => (s', .error ())
    | (s', .ok (sc, m)) => cvLoop env rest s' (cvStep best sc m)

/-- `SelectorCV.select`: run the search; any exception anywhere falls back
to `base_model(n_constant)` evaluated on the CURRENT (possibly
fold-mutated) state.  Returns the chosen model and the final state. -/
def cv_select (env : Env α M) (s : SState α) : Option M × SState α :=
  match cvLoop env (searchRange s.min_n_components s.max_n_components) s none with
  | (s', .ok r) => (r, s')
  | (s', .error _) => (base_model env s' s'.n_constant, s')

/-- `SelectorConstant.select` with the selector state threaded through:
the method assigns no instance field. -/
def const_selectS (env : Env α M) (s : SState α) : Option M × SState α :=
  (const_select env s, s)

/-- `SelectorBIC.select` with the selector state threaded through:
the method assigns no instance field. -/
def bic_selectS (env : Env α M) (s : SState α) : Option M × SState α :=
  (bic_select env s, s)

/-- `SelectorDIC.select` with the selector state threaded through:
the method assigns no instance field. -/
def dic_selectS (env : Env α M) (s : SState α) : Option M × SState α :=
  (dic_select env s, s)

/-- A concrete instantiation used for evaluation: training succeeds only at
3 states and only on two specific data sets; scoring returns the model id. -/
def env1 : Env Nat Nat where
  train := fun d n =>
    if n = 3 then
      if d = ([0, 1], [1, 1]) then some 42
      else if d = ([1], [1]) then some 99
      else none
    else none
  score := fun m _ => some (m : ℚ)
  npLog := fun _ => 0

/-- A two-sequence word whose candidate range is the single state count 2. -/
def s1 : SState Nat :=
  ⟨[[0], [1]], [0, 1], [1, 1], [("w", ([0, 1], [1, 1]))], "w", 3, 2, 2⟩

/-- A concrete instantiation where every training call succeeds and a
model's score is proportional to the scored data's size. -/
def env2 : Env Nat Nat where
  train := fun _ n => some n
  score := fun m d => some ((m : ℚ) * (d.1.length : ℚ))
  npLog := fun _ => 0

/-- A word together with one other word in the cross-word index. -/
def s2 : SState Nat :=
  ⟨[[0, 1]], [0, 1], [2], [("a", ([0, 1], [2])), ("b", ([5], [1]))], "a", 3, 2, 3⟩

/-- A concrete instantiation where every training call succeeds and a
model's score grows with its state count. -/
def env3 : Env Nat Nat where
  train := fun _ n => some n
  score := fun m d => some ((m : ℚ) + (d.1.length : ℚ))
  npLog := fun _ => 0

/-- A two-sequence word with candidate range `[2, 3]`. -/
def s3 : SState Nat :=
  ⟨[[0], [1]], [0, 1], [1, 1], [], "w", 3, 2, 3⟩

/-- A concrete instantiation where training fails exactly at 3 states. -/
def env4 : Env Nat Nat where
  train := fun _ n => if n = 3 then none else some n
  score := fun m _ => some (-(m : ℚ))
  npLog := fun _ => 0

/-- A one-sequence word with candidate range `[2, 4]`, whose middle
candidate fails to train under `env4`. -/
def s4 : SState Nat :=
  ⟨[[0]], [0], [1], [], "w", 3, 2, 4⟩

lemma searchRange_mem (a b n : Nat) : n ∈ searchRange a b ↔ a ≤ n ∧ n ≤ b := by
  rw [searchRange, List.mem_range'_1]
  omega

lemma searchRange_cons (a b : Nat) (h : a ≤ b) :
    searchRange a b = a :: searchRange (a + 1) b := by
  have h1 : b + 1 - a = (b + 1 - (a + 1)) + 1 := by omega
  rw [searchRange, h1, List.range'_succ, searchRange]

lemma foldl_minUpd_first : ∀ (xs : List (ℚ × M)) (x : ℚ × M),
    ∃ l1 l2, x :: xs = l1 ++ xs.foldl minUpd x :: l2 ∧
      (∀ y ∈ x :: xs, (xs.foldl minUpd x).1 ≤ y.1) ∧
      ∀ y ∈ l1, (xs.foldl minUpd x).1 < y.1
  | [], x => ⟨[], [], rfl, by simp, by simp⟩
  | y :: ys, x => by
    obtain ⟨l1, l2, hdec, hle, hlt⟩ := foldl_minUpd_first ys (minUpd x y)
    rw [List.foldl_cons]
    by_cases h : y.1 < x.1
    · have hxy : minUpd x y = y := by simp [minUpd, h]
      rw [hxy] at hdec hle hlt ⊢
      have hry : (ys.foldl minUpd y).1 ≤ y.1 := hle y (by simp)
      refine ⟨x :: l1, l2, ?_, ?_, ?_⟩
      · simpa using hdec
      · intro z hz
        rcases List.mem_cons.mp hz with rfl | hz
        · exact le_of_lt (lt_of_le_of_lt hry h)
        · exact hle z hz
      · intro z hz
        rcases List.mem_cons.mp hz with rfl | hz
        · exact lt_of_le_of_lt hry h
        · exact hlt z hz
    · have hxy : minUpd x y = x := by simp [minUpd, h]
      rw [hxy] at hdec hle hlt ⊢
      have hxley : x.1 ≤ y.1 := le_of_not_lt h
      cases l1 with
      | nil =>
        simp only [List.nil_append, List.cons.injEq] at hdec
        obtain ⟨hxr, hys⟩ := hdec
        refine ⟨[], y :: ys, ?_, ?_, by simp⟩
        · simp [← hxr]
        · intro z hz
          rcases List.mem_cons.mp hz with rfl | hz
          · exact le_of_eq (congrArg Prod.fst hxr.symm)
          · rcases List.mem_cons.mp hz with rfl | hz
            · exact le_trans (le_of_eq (congrArg Prod.fst hxr.symm)) hxley
            · exact hle z (by simp [hz])
      | cons a l1' =>
        rw [List.cons_append] at hdec
        injection hdec with h1 h2
        subst h1
        have hrx : (ys.foldl minUpd x).1 < x.1 := hlt x (by simp)
        refine ⟨x :: y :: l1', l2, ?_, ?_, ?_⟩
        · rw [List.cons_append, List.cons_append]
          exact congrArg (List.cons x) (congrArg (List.cons y) h2)
        · intro z hz
          rcases List.mem_cons.mp hz with rfl | hz
          · exact le_of_lt hrx
          · rcases List.mem_cons.mp hz with rfl | hz
            · exact le_of_lt (lt_of_lt_of_le hrx hxley)
            · exact hle z (by simp [hz])
        · intro z hz
          rcases List.mem_cons.mp hz with rfl | hz
          · exact hrx
          · rcases List.mem_cons.mp hz with rfl | hz
            · exact lt_of_lt_of_le hrx hxley
            · exact hlt z (by simp [hz])

lemma foldl_minUpd_mem_le (xs : List (ℚ × M)) (x : ℚ × M) :
    xs.foldl minUpd x ∈ x :: xs ∧ ∀ y ∈ x :: xs, (xs.foldl minUpd x).1 ≤ y.1 := by
  obtain ⟨l1, l2, hdec, hle, _⟩ := foldl_minUpd_first xs x
  constructor
  · rw [hdec]
    exact List.mem_append_right l1 (by simp)
  · exact hle

lemma foldl_maxUpd_mem_le : ∀ (xs : List (ℚ × M)) (x : ℚ × M),
    xs.foldl maxUpd x ∈ x :: xs ∧ ∀ y ∈ x :: xs, y.1 ≤ (xs.foldl maxUpd x).1
  | [], x => ⟨by simp, by simp⟩
  | y :: ys, x => by
    obtain ⟨hmem, hle⟩ := foldl_maxUpd_mem_le ys (maxUpd x y)
    rw [List.foldl_cons]
    have hup : maxUpd x y = x ∨ maxUpd x y = y := by
      rw [maxUpd]; split <;> simp
    have hx : x.1 ≤ (maxUpd x y).1 := by
      rw [maxUpd]; split <;> simp_all [le_of_lt]
    have hy : y.1 ≤ (maxUpd x y).1 := by
      rw [maxUpd]; split <;> simp_all [le_of_not_lt]
    constructor
    · rcases List.mem_cons.mp hmem with heq | hmem
      · rcases hup with hu | hu <;> rw [heq, hu] <;> simp
      · simp [hmem]
    · intro z hz
      have hub : (maxUpd x y).1 ≤ (ys.foldl maxUpd (maxUpd x y)).1 :=
        hle _ (by simp)
      rcases List.mem_cons.mp hz with rfl | hz
      · exact le_trans hx hub
      · rcases List.mem_cons.mp hz with rfl | hz
        · exact le_trans hy hub
        · exact hle z (by simp [hz])

lemma ok_toOption {β : Type} (v : β) : (Except.ok (ε := Unit) v).toOption = some v := rfl

lemma error_toOption {β : Type} (e : Unit) :
    (Except.error (α := β) e).toOption = none := rfl

lemma foldl_dicStep_some : ∀ (xs : List (ℚ × M)) (b : ℚ × M),
    xs.foldl (fun acc y => dicStep acc y.1 y.2) (some b) = some (xs.foldl maxUpd b)
  | [], _ => rfl
  | y :: ys, b => by
    rw [List.foldl_cons, List.foldl_cons]
    have h : dicStep (some b) y.1 y.2 = some (maxUpd b y) := by
      by_cases hc : b.1 < y.1 <;> simp [dicStep, maxUpd, hc]
    rw [h]
    exact foldl_dicStep_some ys (maxUpd b y)

lemma foldl_cvStep_some : ∀ (xs : List (ℚ × M)) (b : ℚ × M),
    xs.foldl (fun acc y => cvStep acc y.1 y.2) (some b) = some (xs.foldl minUpd b)
  | [], _ => rfl
  | y :: ys, b => by
    rw [List.foldl_cons, List.foldl_cons]
    have h : cvStep (some b) y.1 y.2 = some (minUpd b y) := by
      by_cases hc : y.1 < b.1 <;> simp [cvStep, minUpd, hc]
    rw [h]
    exact foldl_cvStep_some ys (minUpd b y)

lemma dicLoop_error (env : Env α M) (s : SState α) :
    ∀ (ns : List Nat) (best : Option (ℚ × M)),
      (∃ n ∈ ns, dic_score env s n = .error ()) →
      dicLoop env s ns best = .error () := by
  intro ns
  induction ns with
  | nil => intro best h; simp at h
  | cons n rest ih =>
    intro best h
    cases hds : dic_score env s n with
    | error e => simp [dicLoop, hds]
    | ok v =>
      obtain ⟨k, hk, hke⟩ := h
      rcases List.mem_cons.mp hk with rfl | hk
      · rw [hds] at hke
        exact absurd hke (by simp)
      · simp only [dicLoop, hds]
        exact ih _ ⟨k, hk, hke⟩

lemma dicLoop_ok (env : Env α M) (s : SState α) :
    ∀ (ns : List Nat) (best : Option (ℚ × M)),
      (∀ n ∈ ns, ∃ v, dic_score env s n = .ok v) →
      dicLoop env s ns best =
        .ok (((ns.filterMap fun n => (dic_score env s n).toOption).foldl
          (fun acc y => dicStep acc y.1 y.2) best).map (·.2)) := by
  intro ns
  induction ns with
  | nil => intro best _; rfl
  | cons n rest ih =>
    intro best h
    obtain ⟨v, hv⟩ := h n (by simp)
    simp only [dicLoop, hv, List.filterMap_cons, ok_toOption, List.foldl_cons]
    exact ih _ fun k hk => h k (by simp [hk])

lemma bic_foldl_filterMap (env : Env α M) (s : SState α) :
    ∀ (ns : List Nat) (acc : List (ℚ × M)),
      ns.foldl (fun acc n =>
        match bicBody env s n with
        | .ok e => acc ++ [e]
        | .error _ => acc) acc
      = acc ++ ns.filterMap fun n => (bicBody env s n).toOption := by
  intro ns
  induction ns with
  | nil => intro acc; simp
  | cons n rest ih =>
    intro acc
    cases hb : bicBody env s n with
    | ok e =>
      simp only [List.foldl_cons, List.filterMap_cons, hb, ok_toOption]
      rw [ih]
      simp
    | error e =>
      simp only [List.foldl_cons, List.filterMap_cons, hb, error_toOption]
      exact ih acc

lemma bic_entries_eq (env : Env α M) (s : SState α) :
    bic_entries env s = (searchRange s.min_n_components s.max_n_components).filterMap
      fun n => (bicBody env s n).toOption := by
  rw [bic_entries, bic_foldl_filterMap]
  simp

lemma bicBody_ok_train (env : Env α M) (s : SState α) (n : Nat) (sc : ℚ) (m : M)
    (h : bicBody env s n = .ok (sc, m)) : env.train (s.X, s.lengths) n = some m := by
  unfold bicBody at h
  cases ht : base_model env s n with
  | none => simp [ht] at h
  | some mm =>
    simp only [ht] at h
    cases hs : env.score mm (s.X, s.lengths) with
    | none => simp [hs] at h
    | some L =>
      simp only [hs, Except.ok.injEq, Prod.mk.injEq] at h
      rw [← h.2]
      exact ht

lemma scoreAll_map (env : Env α M) (m : M) :
    ∀ (l : List (String × ObsData α)) (scores : List ℚ),
      scoreAll env m l = some scores →
      l.map (fun p => env.score m p.2) = scores.map some
  | [], scores => by
    intro h
    simp only [scoreAll, Option.some.injEq] at h
    simp [← h]
  | p :: rest, scores => by
    intro h
    unfold scoreAll at h
    cases hs : env.score m p.2 with
    | none => simp [hs] at h
    | some sc =>
      simp only [hs] at h
      cases hr : scoreAll env m rest with
      | none => simp [hr] at h
      | some l2 =>
        simp only [hr, Option.some.injEq] at h
        subst h
        simp [hs, scoreAll_map env m rest l2 hr]

lemma dic_score_ok_char (env : Env α M) (s : SState α) (n : Nat) (v : ℚ) (m : M)
    (h : dic_score env s n = .ok (v, m)) :
    env.train (s.X, s.lengths) n = some m ∧
    ∃ others own,
      scoreAll env m (s.hwords.filter fun p => p.1 != s.this_word) = some others ∧
      env.score m (s.X, s.lengths) = some own ∧
      v = own - npMean others := by
  unfold dic_score at h
  cases ht : base_model env s n with
  | none => simp [ht] at h
  | some mm =>
    simp only [ht] at h
    cases hsc : scoreAll env mm (s.hwords.filter fun p => p.1 != s.this_word) with
    | none => simp [hsc] at h
    | some others =>
      simp only [hsc] at h
      cases hown : env.score mm (s.X, s.lengths) with
      | none => simp [hown] at h
      | some own =>
        simp only [hown, Except.ok.injEq, Prod.mk.injEq] at h
        obtain ⟨h1, h2⟩ := h
        subst h2
        exact ⟨ht, others, own, hsc, hown, h1.symm⟩

lemma base_model_update (env : Env α M) (u : SState α) (a : List α)
    (b : List Nat) (n : Nat) :
    base_model env { u with X := a, lengths := b } n = env.train (a, b) n := rfl

lemma kfold2_ne_nil (k : Nat) : kfold2 k ≠ [] := by simp [kfold2]

lemma cvFolds_val_congr (env : Env α M) (n : Nat) (seqs : List (List α)) :
    ∀ (fs : List (List Nat × List Nat)) (s t : SState α) (scores : List ℚ)
      (last : Option M),
      (cvFolds env n seqs fs s scores last).2 = (cvFolds env n seqs fs t scores last).2
  | [], s, t, scores, last => rfl
  | (tr, te) :: rest, s, t, scores, last => by
    simp only [cvFolds, base_model_update]
    cases hb : env.train ((combine tr seqs).1, (combine tr seqs).2) n with
    | none => simp [hb]
    | some m =>
      simp only [hb]
      cases hs : env.score m (combine te seqs) with
      | none => simp [hs]
      | some sc =>
        simp only [hs]
        exact cvFolds_val_congr env n seqs rest _ _ (scores ++ [sc]) (some m)

lemma cvFolds_cfg (env : Env α M) (n : Nat) (seqs : List (List α)) :
    ∀ (fs : List (List Nat × List Nat)) (s : SState α) (scores : List ℚ)
      (last : Option M),
      (cvFolds env n seqs fs s scores last).1.sequences = s.sequences ∧
      (cvFolds env n seqs fs s scores last).1.n_constant = s.n_constant
  | [], s, scores, last => ⟨rfl, rfl⟩
  | (tr, te) :: rest, s, scores, last => by
    simp only [cvFolds, base_model_update]
    cases hb : env.train ((combine tr seqs).1, (combine tr seqs).2) n with
    | none => simp [hb]
    | some m =>
      simp only [hb]
      cases hs : env.score m (combine te seqs) with
      | none => simp [hs]
      | some sc =>
        simp only [hs]
        exact cvFolds_cfg env n seqs rest _ (scores ++ [sc]) (some m)

lemma cvFolds_X (env : Env α M) (n : Nat) (seqs : List (List α)) :
    ∀ (fs : List (List Nat × List Nat)) (s : SState α) (scores : List ℚ)
      (last : Option M), fs ≠ [] →
      ∃ p ∈ fs,
        (cvFolds env n seqs fs s scores last).1.X = (combine p.1 seqs).1 ∧
        (cvFolds env n seqs fs s scores last).1.lengths = (combine p.1 seqs).2
  | [], _, _, _, h => absurd rfl h
  | (tr, te) :: rest, s, scores, last, _ => by
    simp only [cvFolds, base_model_update]
    cases hb : env.train ((combine tr seqs).1, (combine tr seqs).2) n with
    | none => exact ⟨(tr, te), by simp, by simp [hb], by simp [hb]⟩
    | some m =>
      simp only [hb]
      cases hs : env.score m (combine te seqs) with
      | none => exact ⟨(tr, te), by simp, by simp [hs], by simp [hs]⟩
      | some sc =>
        simp only [hs]
        cases rest with
        | nil => exact ⟨(tr, te), by simp, by simp [cvFolds], by simp [cvFolds]⟩
        | cons f2 rest2 =>
          obtain ⟨p, hp, hX, hl⟩ :=
            cvFolds_X env n seqs (f2 :: rest2) _ (scores ++ [sc]) (some m)
              (by simp)
          exact ⟨p, by simp [hp], hX, hl⟩

lemma cvFolds_train (env : Env α M) (n : Nat) (seqs : List (List α)) :
    ∀ (fs : List (List Nat × List Nat)) (s : SState α) (scores : List ℚ)
      (last : Option M) (scs : List ℚ) (m : M),
      (cvFolds env n seqs fs s scores last).2 = .ok (scs, m) →
      (∃ d, env.train d n = some m) ∨ last = some m
  | [], s, scores, last, scs, m => by
    intro h
    cases last with
    | none => simp [cvFolds] at h
    | some m0 =>
      simp only [cvFolds, Except.ok.injEq, Prod.mk.injEq] at h
      exact Or.inr (by rw [h.2])
  | (tr, te) :: rest, s, scores, last, scs, m => by
    intro h
    simp only [cvFolds, base_model_update] at h
    cases hb : env.train ((combine tr seqs).1, (combine tr seqs).2) n with
    | none => simp [hb] at h
    | some mtr =>
      simp only [hb] at h
      cases hs : env.score mtr (combine te seqs) with
      | none => simp [hs] at h
      | some sc =>
        simp only [hs] at h
        rcases cvFolds_train env n seqs rest _ (scores ++ [sc]) (some mtr) scs m h with
          hl | hr
        · exact Or.inl hl
        · rw [Option.some.injEq] at hr
          exact Or.inl ⟨_, by rw [hb, hr]⟩

lemma cv_score_state (env : Env α M) (s : SState α) (n : Nat)
    (h : ¬ s.sequences.length < 2) :
    (cv_score env s n).1
      = (cvFolds env n s.sequences (kfold2 s.sequences.length) s [] none).1 := by
  rw [cv_score, if_neg h]
  rcases hf : cvFolds env n s.sequences (kfold2 s.sequences.length) s [] none with ⟨s1, r1⟩
  cases r1 with
  | error e => simp
  | ok v => rcases v with ⟨scores, m⟩; simp

lemma cv_score_val_congr (env : Env α M) (n : Nat) (s t : SState α)
    (h : s.sequences = t.sequences) :
    (cv_score env s n).2 = (cv_score env t n).2 := by
  by_cases hlen : t.sequences.length < 2
  · rw [cv_score, cv_score, h, if_pos hlen, if_pos hlen]
  · rw [cv_score, cv_score, h, if_neg hlen, if_neg hlen]
    have hv := cvFolds_val_congr env n t.sequences (kfold2 t.sequences.length) s t [] none
    rcases h1 : cvFolds env n t.sequences (kfold2 t.sequences.length) s [] none with ⟨s1, r1⟩
    rcases h2 : cvFolds env n t.sequences (kfold2 t.sequences.length) t [] none with ⟨s2, r2⟩
    rw [h1, h2] at hv
    simp only at hv
    subst hv
    cases r1 with
    | error e => simp
    | ok v => rcases v with ⟨scores, m⟩; simp

lemma cv_score_cfg (env : Env α M) (s : SState α) (n : Nat) :
    (cv_score env s n).1.sequences = s.sequences ∧
    (cv_score env s n).1.n_constant = s.n_constant := by
  by_cases hlen : s.sequences.length < 2
  · rw [cv_score, if_pos hlen]
    exact ⟨rfl, rfl⟩
  · rw [cv_score_state env s n hlen]
    exact cvFolds_cfg env n s.sequences (kfold2 s.sequences.length) s [] none

lemma cv_score_X (env : Env α M) (s : SState α) (n : Nat)
    (h2 : 2 ≤ s.sequences.length) :
    ∃ p ∈ kfold2 s.sequences.length,
      (cv_score env s n).1.X = (combine p.1 s.sequences).1 ∧
      (cv_score env s n).1.lengths = (combine p.1 s.sequences).2 := by
  rw [cv_score_state env s n (by omega)]
  exact cvFolds_X env n s.sequences (kfold2 s.sequences.length) s [] none
    (kfold2_ne_nil _)

lemma cv_score_ok_train (env : Env α M) (s : SState α) (n : Nat) (v : ℚ) (m : M)
    (h : (cv_score env s n).2 = .ok (v, m)) : ∃ d, env.train d n = some m := by
  by_cases hlen : s.sequences.length < 2
  · rw [cv_score, if_pos hlen] at h
    simp at h
  · rw [cv_score, if_neg hlen] at h
    rcases hf : cvFolds env n s.sequences (kfold2 s.sequences.length) s [] none with ⟨s1, r1⟩
    rw [hf] at h
    cases r1 with
    | error e => simp at h
    | ok w =>
      rcases w with ⟨scores, mm⟩
      simp only [Except.ok.injEq, Prod.mk.injEq] at h
      rcases cvFolds_train env n s.sequences (kfold2 s.sequences.length) s [] none
          scores mm (by rw [hf]) with hl | hr
      · rw [← h.2]
        exact hl
      · simp at hr

lemma cvLoop_cfg (env : Env α M) :
    ∀ (ns : List Nat) (s : SState α) (best : Option (ℚ × M)),
      (cvLoop env ns s best).1.sequences = s.sequences ∧
      (cvLoop env ns s best).1.n_constant = s.n_constant
  | [], s, best => ⟨rfl, rfl⟩
  | n :: rest, s, best => by
    rcases hcs : cv_score env s n with ⟨s', r⟩
    have hcfg := cv_score_cfg env s n
    rw [hcs] at hcfg
    cases r with
    | error e => simpa [cvLoop, hcs] using hcfg
    | ok v =>
      rcases v with ⟨sc, m⟩
      have := cvLoop_cfg env rest s' (cvStep best sc m)
      simp only [cvLoop, hcs]
      exact ⟨this.1.trans hcfg.1, this.2.trans hcfg.2⟩

lemma cvLoop_X (env : Env α M) :
    ∀ (ns : List Nat) (s : SState α) (best : Option (ℚ × M)), ns ≠ [] →
      2 ≤ s.sequences.length →
      ∃ p ∈ kfold2 s.sequences.length,
        (cvLoop env ns s best).1.X = (combine p.1 s.sequences).1 ∧
        (cvLoop env ns s best).1.lengths = (combine p.1 s.sequences).2
  | [], _, _, h, _ => absurd rfl h
  | n :: rest, s, best, _, h2 => by
    rcases hcs : cv_score env s n with ⟨s', r⟩
    have hcfg := cv_score_cfg env s n
    rw [hcs] at hcfg
    have hX := cv_score_X env s n h2
    rw [hcs] at hX
    cases r with
    | error e => simpa [cvLoop, hcs] using hX
    | ok v =>
      rcases v with ⟨sc, m⟩
      simp only [cvLoop, hcs]
      cases rest with
      | nil => simpa [cvLoop] using hX
      | cons k ks =>
        obtain ⟨p, hp, hpX, hpl⟩ := cvLoop_X env (k :: ks) s' (cvStep best sc m)
          (by simp) (by rw [hcfg.1]; exact h2)
        rw [hcfg.1] at hp hpX hpl
        exact ⟨p, hp, hpX, hpl⟩

lemma cvLoop_ok (env : Env α M) (s : SState α) :
    ∀ (ns : List Nat) (t : SState α) (best : Option (ℚ × M)),
      t.sequences = s.sequences →
      (∀ n ∈ ns, ∃ v, (cv_score env s n).2 = .ok v) →
      (cvLoop env ns t best).2 =
        .ok (((ns.filterMap fun n => ((cv_score env s n).2).toOption).foldl
          (fun acc y => cvStep acc y.1 y.2) best).map (·.2))
  | [], t, best, _, _ => rfl
  | n :: rest, t, best, hseq, h => by
    obtain ⟨v, hv⟩ := h n (by simp)
    have hvt : (cv_score env t n).2 = .ok v := by
      rw [cv_score_val_congr env n t s hseq, hv]
    rcases hcs : cv_score env t n with ⟨t', r⟩
    rw [hcs] at hvt
    simp only at hvt
    subst hvt
    rcases v with ⟨sc, m⟩
    have hcfg := cv_score_cfg env t n
    rw [hcs] at hcfg
    simp only [cvLoop, hcs, List.filterMap_cons, hv, ok_toOption, List.foldl_cons]
    exact cvLoop_ok env s rest t' (cvStep best sc m) (hcfg.1.trans hseq)
      (fun k hk => h k (by simp [hk]))

lemma cvLoop_train (env : Env α M) :
    ∀ (ns : List Nat) (t : SState α) (best : Option (ℚ × M)) (t2 : SState α)
      (r : Option M),
      (∀ sc m, best = some (sc, m) → ∃ d k, env.train d k = some m) →
      cvLoop env ns t best = (t2, .ok r) →
      r = none ∨ ∃ m, r = some m ∧ ∃ d k, env.train d k = some m
  | [], t, best, t2, r => by
    intro hb h
    simp only [cvLoop, Prod.mk.injEq, Except.ok.injEq] at h
    cases best with
    | none => exact Or.inl (by simp [← h.2])
    | some b =>
      refine Or.inr ⟨b.2, by simp [← h.2], hb b.1 b.2 (by simp)⟩
  | n :: rest, t, best, t2, r => by
    intro hb h
    rcases hcs : cv_score env t n with ⟨t', rr⟩
    rw [cvLoop, hcs] at h
    cases rr with
    | error e => simp at h
    | ok v =>
      rcases v with ⟨sc, m⟩
      simp only at h
      have hmtr : ∃ d, env.train d n = some m :=
        cv_score_ok_train env t n sc m (by rw [hcs])
      refine cvLoop_train env rest t' (cvStep best sc m) t2 r ?_ h
      intro sc2 m2 hsm
      cases best with
      | none =>
        simp only [cvStep, Option.some.injEq, Prod.mk.injEq] at hsm
        obtain ⟨d, hd⟩ := hmtr
        exact ⟨d, n, by rw [hd, hsm.2]⟩
      | some b =>
        rw [cvStep] at hsm
        by_cases hlt : sc < b.1
        · rw [if_pos hlt, Option.some.injEq] at hsm
          obtain ⟨d, hd⟩ := hmtr
          exact ⟨d, n, by rw [hd]; exact congrArg some (congrArg Prod.snd hsm)⟩
        · rw [if_neg hlt] at hsm
          exact hb sc2 m2 hsm

lemma toOption_eq_some {β : Type} (e : Except Unit β) (v : β) :
    e.toOption = some v ↔ e = .ok v := by
  cases e <;> simp [Except.toOption]

lemma npMean_pair (a b : ℚ) : npMean [a, b] = (a + b) / 2 := by
  norm_num [npMean]

lemma dic_score_ok_train (env : Env α M) (s : SState α) (n : Nat) (v : ℚ) (m : M)
    (h : dic_score env s n = .ok (v, m)) : env.train (s.X, s.lengths) n = some m :=
  (dic_score_ok_char env s n v m h).1

lemma dicLoop_train (env : Env α M) (s : SState α) :
    ∀ (ns : List Nat) (best : Option (ℚ × M)) (r : Option M),
      (∀ sc m, best = some (sc, m) → ∃ d k, env.train d k = some m) →
      dicLoop env s ns best = .ok r →
      r = none ∨ ∃ m, r = some m ∧ ∃ d k, env.train d k = some m
  | [], best, r => by
    intro hb h
    simp only [dicLoop, Except.ok.injEq] at h
    cases best with
    | none => exact Or.inl (by simp [← h])
    | some b =>
      refine Or.inr ⟨b.2, by simp [← h], hb b.1 b.2 (by simp)⟩
  | n :: rest, best, r => by
    intro hb h
    cases hds : dic_score env s n with
    | error e => rw [dicLoop, hds] at h; simp at h
    | ok v =>
      rcases v with ⟨sc, m⟩
      rw [dicLoop, hds] at h
      simp only at h
      have hmtr : ∃ d, env.train d n = some m := ⟨_, dic_score_ok_train env s n sc m hds⟩
      refine dicLoop_train env s rest (dicStep best sc m) r ?_ h
      intro sc2 m2 hsm
      cases best with
      | none =>
        simp only [dicStep, Option.some.injEq, Prod.mk.injEq] at hsm
        obtain ⟨d, hd⟩ := hmtr
        exact ⟨d, n, by rw [hd, hsm.2]⟩
      | some b =>
        rw [dicStep] at hsm
        by_cases hlt : b.1 < sc
        · rw [if_pos hlt, Option.some.injEq] at hsm
          obtain ⟨d, hd⟩ := hmtr
          exact ⟨d, n, by rw [hd]; exact congrArg some (congrArg Prod.snd hsm)⟩
        · rw [if_neg hlt] at hsm
          exact hb sc2 m2 hsm

lemma cvFolds_two (env : Env α M) (n : Nat) (seqs : List (List α))
    (f0 f1 : List Nat × List Nat) (s : SState α) (scs : List ℚ) (m : M)
    (h : (cvFolds env n seqs [f0, f1] s [] none).2 = .ok (scs, m)) :
    ∃ m0 sc0 sc1,
      env.train (combine f0.1 seqs) n = some m0 ∧
      env.score m0 (combine f0.2 seqs) = some sc0 ∧
      env.train (combine f1.1 seqs) n = some m ∧
      env.score m (combine f1.2 seqs) = some sc1 ∧
      scs = [sc0, sc1] := by
  rcases f0 with ⟨tr0, te0⟩
  rcases f1 with ⟨tr1, te1⟩
  simp only [cvFolds, base_model_update] at h
  cases h0 : env.train ((combine tr0 seqs).1, (combine tr0 seqs).2) n with
  | none => simp [h0] at h
  | some m0 =>
    simp only [h0] at h
    cases hs0 : env.score m0 (combine te0 seqs) with
    | none => simp [hs0] at h
    | some sc0 =>
      simp only [hs0] at h
      cases h1 : env.train ((combine tr1 seqs).1, (combine tr1 seqs).2) n with
      | none => simp [h1] at h
      | some m1 =>
        simp only [h1] at h
        cases hs1 : env.score m1 (combine te1 seqs) with
        | none => simp [hs1] at h
        | some sc1 =>
          simp only [hs1, Except.ok.injEq, Prod.mk.injEq] at h
          obtain ⟨hsc, hm⟩ := h
          subst hm
          exact ⟨m0, sc0, sc1, rfl, hs0, rfl, hs1, by simp [← hsc]⟩

/-- C8: `SelectorConstant.select()` trains exactly one candidate, at
`n_constant` states, and returns exactly that single training call's result
(fitted model or Absent); the result is independent of `min_n_components`
and `max_n_components`, and no scoring or search is involved (the result is
one `Env.train` application). -/
theorem const_select_spec (env : Env α M) (s : SState α) :
    const_select env s = env.train (s.X, s.lengths) s.n_constant ∧
    ∀ a b, const_select env
        { s with min_n_components := a, max_n_components := b }
      = const_select env s :=
  ⟨rfl, fun _ _ => rfl⟩

/-- C3: `calc_deg_lib` computes `num_states^2 + 2*num_states*num_data_points
- 1`, in particular `calc_deg_lib 3 50 = 308`; and every BIC entry built by
`select` scores `-2*log_likelihood + p * log(num_data_points)` where
`num_data_points` is the sum of the word's length markers and `p` is the
free-parameter count at that sum. -/
theorem bic_formula :
    (∀ n d : Int, calc_deg_lib n d = n ^ 2 + 2 * n * d - 1) ∧
    calc_deg_lib 3 50 = 308 ∧
    (∀ (env : Env α M) (s : SState α) (n : Nat) (sc : ℚ) (m : M),
      bicBody env s n = .ok (sc, m) →
      ∃ L, env.score m (s.X, s.lengths) = some L ∧
        sc = -2 * L + (calc_deg_lib n s.lengths.sum : ℚ) * env.npLog s.lengths.sum) := by
  refine ⟨fun n d => rfl, by norm_num [calc_deg_lib], ?_⟩
  intro env s n sc m h
  unfold bicBody at h
  cases ht : base_model env s n with
  | none => simp [ht] at h
  | some mm =>
    simp only [ht] at h
    cases hs : env.score mm (s.X, s.lengths) with
    | none => simp [hs] at h
    | some L =>
      simp only [hs, Except.ok.injEq, Prod.mk.injEq] at h
      obtain ⟨h1, h2⟩ := h
      subst h2
      exact ⟨L, hs, by rw [← h1, calc_score]⟩

/-- Witness for C3 at a concrete input: the 2-state entry of `env4`/`s4`. -/
theorem bic_formula_witness :
    bicBody env4 s4 2 = .ok (4, 2) ∧
    ∃ L, env4.score 2 (s4.X, s4.lengths) = some L ∧
      (4 : ℚ) = -2 * L + (calc_deg_lib 2 s4.lengths.sum : ℚ) * env4.npLog s4.lengths.sum := by
  have hb : bicBody env4 s4 2 = .ok (4, 2) := by
    norm_num [bicBody, base_model, env4, s4, calc_score, calc_deg_lib]
  exact ⟨hb, bic_formula.2.2 env4 s4 2 4 2 hb⟩

/-- C6: if any candidate of DIC's search fails (its `dic_score` raises),
the whole search aborts and `select` returns exactly the Constant
strategy's output for the same word and configuration — `Absent` only if
that fallback training also fails, since both are the same `base_model`
call at `n_constant`. -/
theorem dic_fallback (env : Env α M) (s : SState α)
    (h : ∃ n ∈ searchRange s.min_n_components s.max_n_components,
      dic_score env s n = .error ()) :
    dic_select env s = const_select env s := by
  unfold dic_select
  rw [dicLoop_error env s _ none h]
  rfl

/-- Witness for C6: under `env1`, candidate 2 fails to train, and DIC's
result coincides with Constant's. -/
theorem dic_fallback_witness :
    (∃ n ∈ searchRange s1.min_n_components s1.max_n_components,
      dic_score env1 s1 n = .error ()) ∧
    dic_select env1 s1 = const_select env1 s1 := by
  have h : ∃ n ∈ searchRange s1.min_n_components s1.max_n_components,
      dic_score env1 s1 n = .error () :=
    ⟨2, by decide, by simp [dic_score, base_model, env1, s1]⟩
  exact ⟨h, dic_fallback env1 s1 h⟩

/-- C10: ties never replace the incumbent: BIC's `min` keeps the first
entry attaining the minimal score, and the DIC/CV strict comparisons leave
the incumbent best untouched on an equal score. -/
theorem tie_breaking :
    (∀ (xs : List (ℚ × M)) (x r : ℚ × M),
      calc_best_score_bic (x :: xs) = some r →
      ∃ l1 l2, x :: xs = l1 ++ r :: l2 ∧ (∀ y ∈ x :: xs, r.1 ≤ y.1) ∧
        ∀ y ∈ l1, r.1 < y.1) ∧
    (∀ (b : ℚ × M) (m : M), dicStep (some b) b.1 m = some b) ∧
    (∀ (b : ℚ × M) (m : M), cvStep (some b) b.1 m = some b) := by
  refine ⟨?_, ?_, ?_⟩
  · intro xs x r h
    simp only [calc_best_score_bic, Option.some.injEq] at h
    obtain ⟨l1, l2, hdec, hle, hlt⟩ := foldl_minUpd_first xs x
    rw [h] at hdec hle hlt
    exact ⟨l1, l2, hdec, hle, hlt⟩
  · intro b m
    simp [dicStep]
  · intro b m
    simp [cvStep]

/-- Witness for C10: a two-entry tie at score 1 keeps the first entry, and
the DIC/CV steps keep the incumbent on an equal score. -/
theorem tie_breaking_witness :
    calc_best_score_bic [((1 : ℚ), (10 : Nat)), (1, 20)] = some (1, 10) ∧
    (∃ l1 l2, [((1 : ℚ), (10 : Nat)), (1, 20)] = l1 ++ ((1 : ℚ), (10 : Nat)) :: l2 ∧
      (∀ y ∈ [((1 : ℚ), (10 : Nat)), (1, 20)], ((1 : ℚ), (10 : Nat)).1 ≤ y.1) ∧
      ∀ y ∈ l1, ((1 : ℚ), (10 : Nat)).1 < y.1) ∧
    dicStep (some ((1 : ℚ), (5 : Nat))) 1 7 = some (1, 5) ∧
    cvStep (some ((1 : ℚ), (5 : Nat))) 1 7 = some (1, 5) := by
  have h : calc_best_score_bic [((1 : ℚ), (10 : Nat)), (1, 20)] = some (1, 10) := by
    norm_num [calc_best_score_bic, minUpd]
  exact ⟨h, tie_breaking.1 [((1 : ℚ), (20 : Nat))] (1, 10) (1, 10) h,
    tie_breaking.2.1 (1, 5) 7, tie_breaking.2.2 (1, 5) 7⟩

/-- C4: BIC's search visits exactly the closed candidate range; a candidate
whose training or scoring fails contributes no entry while the others are
still collected (the entry list is the range's `filterMap`); the returned
model is one of minimal BIC score among the collected entries; and with no
entry the result is Absent — no Constant fallback. -/
theorem bic_select_spec (env : Env α M) (s : SState α) :
    (∀ n, n ∈ searchRange s.min_n_components s.max_n_components ↔
      s.min_n_components ≤ n ∧ n ≤ s.max_n_components) ∧
    bic_entries env s
      = (searchRange s.min_n_components s.max_n_components).filterMap
        (fun n => (bicBody env s n).toOption) ∧
    (bic_entries env s = [] → bic_select env s = none) ∧
    (bic_entries env s ≠ [] →
      ∃ e ∈ bic_entries env s, bic_select env s = some e.2 ∧
        ∀ y ∈ bic_entries env s, e.1 ≤ y.1) := by
  refine ⟨fun n => searchRange_mem _ _ n, bic_entries_eq env s, ?_, ?_⟩
  · intro h
    rw [bic_select, h]
    rfl
  · intro h
    cases hE : bic_entries env s with
    | nil => exact absurd hE h
    | cons x xs =>
      refine ⟨xs.foldl minUpd x, ?_, ?_, ?_⟩
      · exact (foldl_minUpd_mem_le xs x).1
      · rw [bic_select, hE]
        rfl
      · exact (foldl_minUpd_mem_le xs x).2

/-- Witness for C4: under `env4`/`s4` the candidate 3 fails, the entries are
non-empty, and the selected model attains the minimal BIC score. -/
theorem bic_select_spec_witness :
    bic_entries env4 s4 ≠ [] ∧
    ∃ e ∈ bic_entries env4 s4, bic_select env4 s4 = some e.2 ∧
      ∀ y ∈ bic_entries env4 s4, e.1 ≤ y.1 := by
  have hE : bic_entries env4 s4 = [(4, 2), (8, 4)] := by
    norm_num [bic_entries, bicBody, base_model, env4, s4, searchRange,
      List.range', calc_score, calc_deg_lib]
  have hne : bic_entries env4 s4 ≠ [] := by rw [hE]; simp
  exact ⟨hne, (bic_select_spec env4 s4).2.2.2 hne⟩

/-- C2: every strategy's `select` is a total function of the environment
and the selector state (each Python `except` is an explicit total branch of
the embedding, so no exception reaches the caller for ANY failure pattern
of the external trainer and scorer), and whenever the returned value is not
Absent it is a model produced by the trainer. -/
theorem select_total_provenance (env : Env α M) (s : SState α) (m : M)
    (h : const_select env s = some m ∨ bic_select env s = some m ∨
      dic_select env s = some m ∨ (cv_select env s).1 = some m) :
    ∃ d k, env.train d k = some m := by
  rcases h with h | h | h | h
  · exact ⟨(s.X, s.lengths), s.n_constant, h⟩
  · rw [bic_select] at h
    cases hcb : calc_best_score_bic (bic_entries env s) with
    | none => rw [hcb] at h; simp at h
    | some p =>
      rw [hcb] at h
      simp only [Option.some.injEq] at h
      subst h
      have hmem : p ∈ bic_entries env s := by
        cases hE : bic_entries env s with
        | nil => rw [hE] at hcb; simp [calc_best_score_bic] at hcb
        | cons x xs =>
          rw [hE] at hcb
          simp only [calc_best_score_bic, Option.some.injEq] at hcb
          rw [← hcb]
          exact (foldl_minUpd_mem_le xs x).1
      rw [bic_entries_eq] at hmem
      obtain ⟨n, hn, hb⟩ := List.mem_filterMap.mp hmem
      rw [toOption_eq_some] at hb
      exact ⟨(s.X, s.lengths), n, bicBody_ok_train env s n p.1 p.2 (by rw [hb])⟩
  · rw [dic_select] at h
    cases hdl : dicLoop env s (searchRange s.min_n_components s.max_n_components)
        none with
    | ok r =>
      rw [hdl] at h
      simp only at h
      rcases dicLoop_train env s _ none r (by simp) hdl with hnone | ⟨m2, hm2, d, k, hp⟩
      · rw [hnone] at h
        simp at h
      · rw [hm2, Option.some.injEq] at h
        exact ⟨d, k, by rw [hp, h]⟩
    | error e =>
      rw [hdl] at h
      simp only at h
      exact ⟨(s.X, s.lengths), s.n_constant, h⟩
  · rcases hcl : cvLoop env (searchRange s.min_n_components s.max_n_components)
        s none with ⟨s2, rr⟩
    rw [cv_select, hcl] at h
    cases rr with
    | ok r =>
      simp only at h
      rcases cvLoop_train env _ s none s2 r (by simp) hcl with hnone | ⟨m2, hm2, d, k, hp⟩
      · rw [hnone] at h
        simp at h
      · rw [hm2, Option.some.injEq] at h
        exact ⟨d, k, by rw [hp, h]⟩
    | error e =>
      simp only at h
      exact ⟨(s2.X, s2.lengths), s2.n_constant, h⟩

/-- Witness for C2: Constant's non-Absent result under `env1` comes from a
training call. -/
theorem select_total_provenance_witness :
    const_select env1 s1 = some 42 ∧ ∃ d k, env1.train d k = some 42 :=
  ⟨by decide, select_total_provenance env1 s1 42 (Or.inl (by decide))⟩

/-- C1 (counterexample): under `env1`, every candidate state count (the
single candidate 2) fails to train on any data, yet `SelectorCV.select()`
returns the model trained at `n_constant` on the FIRST FOLD's combined
training data (`some 99`), not the Constant strategy's output on the word's
original observation data (`some 42`): `cv_score` had already reassigned
`self.X`/`self.lengths` to the fold's training split before the failure. -/
theorem cv_fallback_counterexample :
    env1.train (combine [1] s1.sequences) 2 = none ∧
    env1.train (s1.X, s1.lengths) 2 = none ∧
    (cv_select env1 s1).1 = some 99 ∧
    const_select env1 s1 = some 42 ∧
    (cv_select env1 s1).1 ≠ const_select env1 s1 :=
  ⟨by decide, by decide, by decide, by decide, by decide⟩

/-- C1 (amended): if every candidate state count in the range fails
training (on any data) and the word has at least two sequences, then
`SelectorCV.select()` returns the result of training at `n_constant` states
on the FIRST fold's combined training data — the selector's fold-mutated
`X`/`lengths` — which need not coincide with the Constant strategy's output
on the word's original observation data. -/
theorem cv_fallback_amended (env : Env α M) (s : SState α)
    (h2 : 2 ≤ s.sequences.length)
    (hr : s.min_n_components ≤ s.max_n_components)
    (hfail : ∀ d n, s.min_n_components ≤ n → n ≤ s.max_n_components →
      env.train d n = none) :
    (cv_select env s).1 =
      env.train
        (combine (List.range' ((s.sequences.length + 1) / 2)
          (s.sequences.length - (s.sequences.length + 1) / 2)) s.sequences)
        s.n_constant := by
  have hguard : ¬ s.sequences.length < 2 := by omega
  have htr : env.train
      ((combine (List.range' ((s.sequences.length + 1) / 2)
        (s.sequences.length - (s.sequences.length + 1) / 2)) s.sequences).1,
       (combine (List.range' ((s.sequences.length + 1) / 2)
        (s.sequences.length - (s.sequences.length + 1) / 2)) s.sequences).2)
      s.min_n_components = none :=
    hfail _ _ le_rfl hr
  have hstep : cv_score env s s.min_n_components =
      ({ s with
          X := (combine (List.range' ((s.sequences.length + 1) / 2)
            (s.sequences.length - (s.sequences.length + 1) / 2)) s.sequences).1,
          lengths := (combine (List.range' ((s.sequences.length + 1) / 2)
            (s.sequences.length - (s.sequences.length + 1) / 2)) s.sequences).2 },
        .error ()) := by
    rw [cv_score, if_neg hguard]
    simp only [kfold2, cvFolds, base_model_update, htr]
  rw [cv_select, searchRange_cons _ _ hr]
  simp only [cvLoop, hstep]
  rfl

/-- Witness for the amended C1 at `env1`/`s1`. -/
theorem cv_fallback_amended_witness :
    2 ≤ s1.sequences.length ∧
    s1.min_n_components ≤ s1.max_n_components ∧
    (cv_select env1 s1).1 =
      env1.train
        (combine (List.range' ((s1.sequences.length + 1) / 2)
          (s1.sequences.length - (s1.sequences.length + 1) / 2)) s1.sequences)
        s1.n_constant :=
  ⟨by decide, by decide,
    cv_fallback_amended env1 s1 (by decide) (by decide)
      (fun d n hn1 hn2 => by
        have hn : n = 2 := by
          have : s1.min_n_components = 2 := rfl
          have : s1.max_n_components = 2 := rfl
          omega
        subst hn
        simp [env1])⟩

/-- C5: each DIC candidate scores `own − mean(other scores)`, where the
other scores are the model's log-likelihoods on every word of the
cross-word index other than the current one (in index order), and — when no
candidate in the search fails — `select` returns a model attaining the
maximum DIC value over the range. -/
theorem dic_select_spec (env : Env α M) (s : SState α) :
    (∀ n v m, dic_score env s n = .ok (v, m) →
      env.train (s.X, s.lengths) n = some m ∧
      ∃ others own,
        scoreAll env m (s.hwords.filter fun p => p.1 != s.this_word) = some others ∧
        (s.hwords.filter fun p => p.1 != s.this_word).map (fun p => env.score m p.2)
          = others.map some ∧
        env.score m (s.X, s.lengths) = some own ∧
        ((s.hwords.filter fun p => p.1 != s.this_word) ≠ [] →
          v = own - others.sum / others.length)) ∧
    (s.min_n_components ≤ s.max_n_components →
      (∀ n ∈ searchRange s.min_n_components s.max_n_components,
        ∃ v, dic_score env s n = .ok v) →
      ∃ n ∈ searchRange s.min_n_components s.max_n_components, ∃ v m,
        dic_score env s n = .ok (v, m) ∧ dic_select env s = some m ∧
        ∀ k ∈ searchRange s.min_n_components s.max_n_components, ∀ w mk,
          dic_score env s k = .ok (w, mk) → w ≤ v) := by
  constructor
  · intro n v m h
    obtain ⟨ht, others, own, hsc, hown, hv⟩ := dic_score_ok_char env s n v m h
    exact ⟨ht, others, own, hsc, scoreAll_map env m _ others hsc, hown,
      fun _ => by rw [hv, npMean]⟩
  · intro hr hok
    have hcons := searchRange_cons _ _ hr
    obtain ⟨v0, hv0⟩ := hok s.min_n_components (by rw [hcons]; simp)
    have hvals : (searchRange s.min_n_components s.max_n_components).filterMap
        (fun n => (dic_score env s n).toOption)
        = v0 :: (searchRange (s.min_n_components + 1) s.max_n_components).filterMap
          (fun n => (dic_score env s n).toOption) := by
      rw [hcons, List.filterMap_cons, hv0, ok_toOption]
    have hloop := dicLoop_ok env s
      (searchRange s.min_n_components s.max_n_components) none hok
    rw [hvals, List.foldl_cons] at hloop
    have hstep0 : dicStep (none : Option (ℚ × M)) v0.1 v0.2 = some v0 := rfl
    rw [hstep0, foldl_dicStep_some] at hloop
    set vs := (searchRange (s.min_n_components + 1) s.max_n_components).filterMap
      (fun n => (dic_score env s n).toOption) with hvs
    obtain ⟨hmem, hle⟩ := foldl_maxUpd_mem_le vs v0
    have hmem2 : vs.foldl maxUpd v0
        ∈ (searchRange s.min_n_components s.max_n_components).filterMap
          (fun n => (dic_score env s n).toOption) := by
      rw [hvals]
      exact hmem
    obtain ⟨nr, hnr, hnro⟩ := List.mem_filterMap.mp hmem2
    rw [toOption_eq_some] at hnro
    refine ⟨nr, hnr, (vs.foldl maxUpd v0).1, (vs.foldl maxUpd v0).2, hnro, ?_, ?_⟩
    · rw [dic_select, hloop]
      rfl
    · intro k hk w mk hke
      have hwmem : (w, mk) ∈ (searchRange s.min_n_components
          s.max_n_components).filterMap (fun n => (dic_score env s n).toOption) :=
        List.mem_filterMap.mpr ⟨k, hk, by rw [toOption_eq_some]; exact hke⟩
      rw [hvals] at hwmem
      exact hle (w, mk) hwmem

/-- Witness for C5's selection property at `env2`/`s2`: candidates `{2, 3}`
score DIC values `{2, 3}` and the 3-state model is returned. -/
theorem dic_select_spec_witness :
    ∃ n ∈ searchRange s2.min_n_components s2.max_n_components, ∃ v m,
      dic_score env2 s2 n = .ok (v, m) ∧ dic_select env2 s2 = some m ∧
      ∀ k ∈ searchRange s2.min_n_components s2.max_n_components, ∀ w mk,
        dic_score env2 s2 k = .ok (w, mk) → w ≤ v :=
  (dic_select_spec env2 s2).2 (by decide)
    (by
      intro n hn
      rw [searchRange_mem] at hn
      have hs2a : s2.min_n_components = 2 := rfl
      have hs2b : s2.max_n_components = 3 := rfl
      rw [hs2a, hs2b] at hn
      obtain ⟨hn1, hn2⟩ := hn
      interval_cases n
      · exact ⟨(2, 2), by
          norm_num [dic_score, base_model, env2, s2, scoreAll, npMean, List.filter]⟩
      · exact ⟨(3, 3), by
          norm_num [dic_score, base_model, env2, s2, scoreAll, npMean, List.filter]⟩)

/-- C7: for a word with at least two sequences, each CV candidate is
evaluated on exactly 2 folds; a successful `cv_score` means: for each fold
the candidate was retrained on that fold's combined training split and the
combined held-out split was scored with that fold's fresh model, the
returned value is the average of the two fold scores and the returned model
is the last fold's; and — when no candidate fails — `select` keeps a
candidate of minimal average score (tracking `best_score` from `+Inf` with
strict replacement). -/
theorem cv_score_spec (env : Env α M) (s : SState α)
    (h2 : 2 ≤ s.sequences.length) :
    (kfold2 s.sequences.length).length = 2 ∧
    (∀ n s' avg m, cv_score env s n = (s', .ok (avg, m)) →
      ∃ tr0 te0 tr1 te1 m0 sc0 sc1,
        kfold2 s.sequences.length = [(tr0, te0), (tr1, te1)] ∧
        env.train (combine tr0 s.sequences) n = some m0 ∧
        env.score m0 (combine te0 s.sequences) = some sc0 ∧
        env.train (combine tr1 s.sequences) n = some m ∧
        env.score m (combine te1 s.sequences) = some sc1 ∧
        avg = (sc0 + sc1) / 2) ∧
    (s.min_n_components ≤ s.max_n_components →
      (∀ n ∈ searchRange s.min_n_components s.max_n_components,
        ∃ v, (cv_score env s n).2 = .ok v) →
      ∃ n ∈ searchRange s.min_n_components s.max_n_components, ∃ v m,
        (cv_score env s n).2 = .ok (v, m) ∧ (cv_select env s).1 = some m ∧
        ∀ k ∈ searchRange s.min_n_components s.max_n_components, ∀ w mk,
          (cv_score env s k).2 = .ok (w, mk) → v ≤ w) := by
  refine ⟨by simp [kfold2], ?_, ?_⟩
  · intro n s' avg m h
    rw [cv_score, if_neg (by omega : ¬ s.sequences.length < 2)] at h
    obtain ⟨f0, f1, hkf⟩ : ∃ f0 f1, kfold2 s.sequences.length = [f0, f1] :=
      ⟨_, _, rfl⟩
    rw [hkf] at h
    rcases hf : cvFolds env n s.sequences [f0, f1] s [] none with ⟨s1, r1⟩
    rw [hf] at h
    cases r1 with
    | error e => simp at h
    | ok w =>
      rcases w with ⟨scores, mlast⟩
      simp only [Prod.mk.injEq, Except.ok.injEq] at h
      obtain ⟨hs1, havg, hm⟩ := h
      subst hm
      obtain ⟨m0, sc0, sc1, ht0, hsc0, ht1, hsc1, hscs⟩ :=
        cvFolds_two env n s.sequences f0 f1 s scores mlast (by rw [hf])
      subst hscs
      refine ⟨f0.1, f0.2, f1.1, f1.2, m0, sc0, sc1, by rw [hkf], ht0, hsc0, ht1,
        hsc1, ?_⟩
      rw [← havg, npMean_pair]
  · intro hr hok
    have hcons := searchRange_cons _ _ hr
    obtain ⟨v0, hv0⟩ := hok s.min_n_components (by rw [hcons]; simp)
    have hvals : (searchRange s.min_n_components s.max_n_components).filterMap
        (fun n => ((cv_score env s n).2).toOption)
        = v0 :: (searchRange (s.min_n_components + 1) s.max_n_components).filterMap
          (fun n => ((cv_score env s n).2).toOption) := by
      rw [hcons, List.filterMap_cons, hv0, ok_toOption]
    have hloop := cvLoop_ok env s
      (searchRange s.min_n_components s.max_n_components) s none rfl hok
    rw [hvals, List.foldl_cons] at hloop
    have hstep0 : cvStep (none : Option (ℚ × M)) v0.1 v0.2 = some v0 := rfl
    rw [hstep0, foldl_cvStep_some] at hloop
    set vs := (searchRange (s.min_n_components + 1) s.max_n_components).filterMap
      (fun n => ((cv_score env s n).2).toOption) with hvs
    obtain ⟨hmem, hle⟩ := foldl_minUpd_mem_le vs v0
    have hmem2 : vs.foldl minUpd v0
        ∈ (searchRange s.min_n_components s.max_n_components).filterMap
          (fun n => ((cv_score env s n).2).toOption) := by
      rw [hvals]
      exact hmem
    obtain ⟨nr, hnr, hnro⟩ := List.mem_filterMap.mp hmem2
    rw [toOption_eq_some] at hnro
    refine ⟨nr, hnr, (vs.foldl minUpd v0).1, (vs.foldl minUpd v0).2, hnro, ?_, ?_⟩
    · rcases hcl : cvLoop env (searchRange s.min_n_components s.max_n_components)
          s none with ⟨s2, rr⟩
      rw [hcl] at hloop
      simp only at hloop
      subst hloop
      rw [cv_select, hcl]
      rfl
    · intro k hk w mk hke
      have hwmem : (w, mk) ∈ (searchRange s.min_n_components
          s.max_n_components).filterMap (fun n => ((cv_score env s n).2).toOption) :=
        List.mem_filterMap.mpr ⟨k, hk, by rw [toOption_eq_some]; exact hke⟩
      rw [hvals] at hwmem
      exact hle (w, mk) hwmem

/-- Witness for C7's selection property at `env3`/`s3`: candidates `{2, 3}`
average `{3, 4}` and the 2-state model (minimal average) is returned. -/
theorem cv_score_spec_witness :
    2 ≤ s3.sequences.length ∧
    ∃ n ∈ searchRange s3.min_n_components s3.max_n_components, ∃ v m,
      (cv_score env3 s3 n).2 = .ok (v, m) ∧ (cv_select env3 s3).1 = some m ∧
      ∀ k ∈ searchRange s3.min_n_components s3.max_n_components, ∀ w mk,
        (cv_score env3 s3 k).2 = .ok (w, mk) → v ≤ w :=
  ⟨by decide,
    (cv_score_spec env3 s3 (by decide)).2.2 (by decide)
      (by
        intro n hn
        rw [searchRange_mem] at hn
        have hs3a : s3.min_n_components = 2 := rfl
        have hs3b : s3.max_n_components = 3 := rfl
        rw [hs3a, hs3b] at hn
        obtain ⟨hn1, hn2⟩ := hn
        interval_cases n
        · exact ⟨(3, 2), by
            norm_num [cv_score, cvFolds, base_model, env3, s3, kfold2, combine,
              npMean, List.getD, Function.comp]⟩
        · exact ⟨(4, 3), by
            norm_num [cv_score, cvFolds, base_model, env3, s3, kfold2, combine,
              npMean, List.getD, Function.comp]⟩)⟩

/-- C9: after a `SelectorCV.select()` call on a word with at least two
sequences and a non-empty candidate range, the selector's `X`/`lengths`
hold a fold's combined training data — in particular strictly fewer length
markers than the word's own, so NOT the original observation data set at
construction — while the Constant, BIC and DIC selectors leave the selector
state unchanged. -/
theorem cv_state_mutation (env : Env α M) (s : SState α)
    (h2 : 2 ≤ s.sequences.length)
    (hr : s.min_n_components ≤ s.max_n_components)
    (hl : s.lengths.length = s.sequences.length) :
    (∃ p ∈ kfold2 s.sequences.length,
      (cv_select env s).2.X = (combine p.1 s.sequences).1 ∧
      (cv_select env s).2.lengths = (combine p.1 s.sequences).2 ∧
      (cv_select env s).2.lengths ≠ s.lengths) ∧
    ∀ (t : SState α), (const_selectS env t).2 = t ∧ (bic_selectS env t).2 = t ∧
      (dic_selectS env t).2 = t := by
  constructor
  · have hns : searchRange s.min_n_components s.max_n_components ≠ [] := by
      rw [searchRange_cons _ _ hr]
      simp
    have hstate : (cv_select env s).2
        = (cvLoop env (searchRange s.min_n_components s.max_n_components)
            s none).1 := by
      rw [cv_select]
      rcases hcl : cvLoop env (searchRange s.min_n_components s.max_n_components)
          s none with ⟨s2, rr⟩
      cases rr <;> simp
    obtain ⟨p, hp, hX, hlen⟩ := cvLoop_X env
      (searchRange s.min_n_components s.max_n_components) s none hns h2
    refine ⟨p, hp, by rw [hstate]; exact hX, by rw [hstate]; exact hlen, ?_⟩
    rw [hstate, hlen]
    intro hEq
    have hlenlen : (combine p.1 s.sequences).2.length = p.1.length := by
      simp [combine]
    have hplt : p.1.length < s.sequences.length := by
      simp only [kfold2, List.mem_cons, List.not_mem_nil, or_false] at hp
      rcases hp with hp | hp <;> rw [hp] <;> simp <;> omega
    have hcast := congrArg List.length hEq
    rw [hlenlen, hl] at hcast
    omega
  · intro t
    exact ⟨rfl, rfl, rfl⟩

/-- Witness for C9 at `env3`/`s3`: the final state holds fold training
data, with fewer length markers than the original. -/
theorem cv_state_mutation_witness :
    2 ≤ s3.sequences.length ∧
    s3.min_n_components ≤ s3.max_n_components ∧
    ∃ p ∈ kfold2 s3.sequences.length,
      (cv_select env3 s3).2.X = (combine p.1 s3.sequences).1 ∧
      (cv_select env3 s3).2.lengths = (combine p.1 s3.sequences).2 ∧
      (cv_select env3 s3).2.lengths ≠ s3.lengths :=
  ⟨by decide, by decide,
    (cv_state_mutation env3 s3 (by decide) (by decide) (by decide)).1⟩
